import Mathlib

set_option maxHeartbeats 2000000
set_option maxRecDepth 8000
set_option exponentiation.threshold 2048

attribute [local semireducible] Rat.add Rat.sub Rat.mul Rat.inv

/-! Verification of the query-classification engine of `src/simple_agent.py`.

Queries are modelled as Lean `String`s, scanned as `List Char`.  Every
Python construct the classifier uses — substring tests
(`keyword in query_lower`), the `A.*B` regular expressions of the pattern
tables, the arithmetic / percentage regexes, dict insertion order and the
first-maximum semantics of `max(d, key=d.get)` — is embedded by an
executable, structurally recursive Lean function so that concrete queries
evaluate by `decide`.

Numbers are modelled at two levels.  The classifier's scores are exact
rationals over `ℚ` (the scoring constants 0.3, 0.2, 0.95, 0.7 become 3/10,
1/5, 19/20, 7/10); no reachable score sits anywhere near a double rounding
or overflow boundary, so this level is exact for the classifier.  The
mathematical responder, whose operands come from user text of unbounded
magnitude, additionally gets a float level (`PyFloat`): finite values
carried exactly, saturation to infinity from the IEEE-754 double overflow
threshold 2^1024 − 2^970 on, nan with its comparison semantics, and the
`OverflowError` that CPython's float power operator raises beyond the
double range.  The exact-level responder (`generateMathematicalResponse`)
idealises those failure modes away and serves to pin which branch each
input reaches; the float level (`generateMathematicalResponseF`) is the
authority for what the reached branch returns or raises. -/

/-- Python regex class `\s` (its ASCII part, which is all the classifier's
whitespace handling exercises): space, tab, newline, carriage return,
vertical tab, form feed. -/
def pySpace (c : Char) : Bool :=
  c = ' ' || c = '\t' || c = '\n' || c = '\r' || c = '\x0b' || c = '\x0c'

/-- Python regex class `\w` (ASCII part): letters, digits, underscore. -/
def pyWordChar (c : Char) : Bool :=
  c.isAlphanum || c = '_'

/-- Model of `query.lower()`: the character list of a query, lowercased. -/
def lowerS (s : String) : List Char := s.data.map Char.toLower

/-- Test `listPrefixOf n h`: the needle `n` is a prefix of `h`. -/
def listPrefixOf : List Char → List Char → Bool
  | [], _ => true
  | _ :: _, [] => false
  | c :: cs, d :: ds => c == d && listPrefixOf cs ds

/-- Python's substring test `needle in hay`. -/
def listContains (needle : List Char) : List Char → Bool
  | [] => listPrefixOf needle []
  | c :: t => listPrefixOf needle (c :: t) || listContains needle t

/-- Whether `needle` occurs in `hay` at a position reachable from the start of `hay`
without crossing a newline (the region a Python `.*` may span). -/
def lineContains (needle : List Char) : List Char → Bool
  | [] => listPrefixOf needle []
  | c :: t => listPrefixOf needle (c :: t) || (!(c == '\n') && lineContains needle t)

/-- Model of `re.search` for a pattern of the shape `A.*B` (`A`, `B` literal): some
occurrence of `A` is followed, without an intervening newline, by an
occurrence of `B`.  Every entry of `self.query_patterns` has this shape
(`\+` and `/` in the sources are literal characters). -/
def searchDotStar (a b : List Char) : List Char → Bool
  | [] => listPrefixOf a [] && lineContains b []
  | c :: t =>
    (listPrefixOf a (c :: t) && lineContains b (List.drop a.length (c :: t)))
      || searchDotStar a b t

/-- The `QueryType` enum of `simple_agent.py`. -/
inductive QueryType
  | mathematical
  | reasoning
  | creative
  | technical
  | ethical
  | strategic
  | architectural
  | security
  | optimization
  | integration
  | compliance
  | innovation
  | general
deriving DecidableEq

/-- The `AnalysisResult` dataclass (confidence as an exact rational). -/
structure AnalysisResult where
  query_type : QueryType
  confidence : ℚ
  reasoning : String
  complexity_level : String
deriving DecidableEq

/-- Table `self.knowledge_domains` from `AdvancedAIAgent.__init__`, in source
order. -/
def knowledgeDomains : List (String × List String) :=
  [("security",
    ["vulnerability", "vulnerabilities", "attack", "exploit", "penetration",
     "authentication", "authorization", "encryption", "cipher", "cryptography",
     "threat", "security", "secure", "injection", "xss", "csrf", "malware",
     "breach", "firewall", "intrusion", "phishing"]),
   ("architecture",
    ["scalable", "microservices", "distributed", "load balancing", "websockets",
     "collaboration", "database", "api", "rest", "graphql", "event-driven",
     "serverless", "architecture", "design", "system", "integration",
     "deployment", "infrastructure", "framework", "devops", "pipelines",
     "monitoring", "cloud", "recovery", "error handling"]),
   ("optimization",
    ["performance", "bottleneck", "concurrent", "parallel", "cache", "1000+",
     "handling", "algorithm", "complexity", "efficient", "latency",
     "throughput", "optimize", "speed", "scale", "benchmark", "profiling",
     "bottlenecks", "optimization"]),
   ("compliance",
    ["gdpr", "ccpa", "privacy", "regulation", "audit", "governance", "bias",
     "fairness", "compliance", "legal", "data protection", "consent",
     "regulatory", "ethics", "ethical", "responsible", "trails", "features"]),
   ("innovation",
    ["ai", "machine learning", "quantum", "blockchain", "edge computing",
     "self-improving", "iot", "ar", "vr", "5g", "neural network", "innovation",
     "future", "emerging", "adaptive", "learning", "generates", "scenarios",
     "quantum-powered"]),
   ("business",
    ["strategy", "market", "competitive", "revenue", "roi", "kpi", "framework",
     "solutions", "stakeholder", "business model", "value proposition",
     "monetization", "analysis", "compare", "existing", "advantages",
     "positioning"])]

/-- Table `self.query_patterns`, each regex `A.*B` stored as the pair `(A, B)`
(`r"1000\+.*agents"` is the literal `"1000+"` followed by `"agents"`),
in source order. -/
def queryPatterns : List (String × List (String × String)) :=
  [("architecture",
    [("design", "architecture"), ("design", "system"),
     ("websockets", "collaboration"), ("error handling", "recovery"),
     ("devops", "strategy"), ("ci/cd", "pipelines"),
     ("real-time", "features")]),
   ("optimization",
    [("performance", "bottleneck"), ("concurrent", "tests"),
     ("1000+", "agents"), ("optimization", "strategies")]),
   ("innovation",
    [("self-improving", "system"), ("quantum", "agents"),
     ("adaptive", "learning")]),
   ("business",
    [("competitive", "analysis"), ("market", "positioning"),
     ("compare", "framework")])]

/-- Table `self.complexity_indicators`. -/
def complexityIndicators : List (String × List String) :=
  [("basic", ["what", "how", "simple", "basic", "introduction"]),
   ("intermediate", ["analyze", "compare", "design", "implement", "strategy"]),
   ("advanced", ["architect", "optimize", "integrate", "comprehensive",
                 "sophisticated"]),
   ("expert", ["quantum", "distributed", "concurrent", "enterprise",
               "multi-domain"])]

/-- Count `sum(1 for keyword in keywords if keyword in query_lower)`. -/
def kwHits (kws : List String) (ql : List Char) : Nat :=
  kws.countP (fun kw => listContains kw.data ql)

/-- Count `sum(1 for pattern in patterns if re.search(pattern, query_lower))`. -/
def patternCount (pats : List (String × String)) (ql : List Char) : Nat :=
  pats.countP (fun p => searchDotStar p.1.data p.2.data ql)

/-- One step of the keyword-scoring loop: the dict entry (if any) that the
domain `p` contributes, `score / len(keywords)` guarded by `score > 0`. -/
def keywordEntry (ql : List Char) (p : String × List String) :
    Option (String × ℚ) :=
  if 0 < kwHits p.2 ql then
    some (p.1, (kwHits p.2 ql : ℚ) / (p.2.length : ℚ))
  else none

/-- Update `domain_scores[domain] = domain_scores.get(domain, 0) + bonus`: a Python
dict update, which overwrites in place when the key exists and appends
otherwise. -/
def upsertScore : List (String × ℚ) → String → ℚ → List (String × ℚ)
  | [], d, b => [(d, b)]
  | (e, v) :: t, d, b =>
    if e = d then (e, v + b) :: t else (e, v) :: upsertScore t d b

/-- One iteration of the pattern-scoring loop for the pattern table row `p`:
when at least one regex of the row matches, add `matches * 0.3` on top of
the existing score (default 0). -/
def patternStep (ql : List Char) (acc : List (String × ℚ))
    (p : String × List (String × String)) : List (String × ℚ) :=
  if 0 < patternCount p.2 ql then
    upsertScore acc p.1 ((patternCount p.2 ql : ℚ) * (3 / 10))
  else acc

/-- The `domain_scores` dict after both scoring loops, as an association
list in Python dict insertion order. -/
def domainScores (q : String) : List (String × ℚ) :=
  queryPatterns.foldl (patternStep (lowerS q))
    (knowledgeDomains.filterMap (keywordEntry (lowerS q)))

/-- One comparison of Python's `max` with a key function: the current best
is kept unless the new element is strictly greater. -/
def maxStep (best y : String × ℚ) : String × ℚ :=
  if best.2 < y.2 then y else best

/-- Result of `max(domain_scores, key=domain_scores.get)` paired with its score, or
`none` for the empty dict: the first entry attaining the maximum wins. -/
def pickMax : List (String × ℚ) → Option (String × ℚ)
  | [] => none
  | x :: t => some (t.foldl maxStep x)

/-- The arithmetic-search pattern of `_is_mathematical`:
`\d+\s*[\+\-\*/\^]\s*\d+` searched anywhere.  Greedy matching coincides with
maximal munch here: no shorter take of `\d+` or `\s*` can ever succeed where
the maximal one fails, because a digit is neither whitespace nor an
operator and an operator is not whitespace. -/
def scanArith : List Char → Bool
  | [] => false
  | c :: t =>
    (c.isDigit &&
      (match (t.dropWhile Char.isDigit).dropWhile pySpace with
       | o :: r =>
         (o == '+' || o == '-' || o == '*' || o == '/' || o == '^') &&
           (match r.dropWhile pySpace with
            | d :: _ => d.isDigit
            | [] => false)
       | [] => false))
      || scanArith t

/-- The function-name alternatives of
`\b(?:sqrt|log|sin|cos|tan|exp|factorial)\b`. -/
def mathFuncNames : List String :=
  ["sqrt", "log", "sin", "cos", "tan", "exp", "factorial"]

/-- Whether `w` matches at the head of `s` with a word boundary after it. -/
def wordAtHead (w : List Char) (s : List Char) : Bool :=
  listPrefixOf w s &&
    (match List.drop w.length s with
     | [] => true
     | c :: _ => !pyWordChar c)

/-- Search for `\b(?:sqrt|...|factorial)\b`: `prev` records whether the
character before the current position is a word character (initially
false, the start-of-string boundary). -/
def scanFuncWord (prev : Bool) : List Char → Bool
  | [] => false
  | c :: t =>
    (!prev && mathFuncNames.any (fun w => wordAtHead w.data (c :: t)))
      || scanFuncWord (pyWordChar c) t

/-- The written-arithmetic pattern
`\d+\s*(plus|minus|times|divided by)\s*\d+`; the four alternatives start
with pairwise distinct letters, so at most one can match at a position. -/
def scanWrittenArith : List Char → Bool
  | [] => false
  | c :: t =>
    (c.isDigit &&
      (let r := (t.dropWhile Char.isDigit).dropWhile pySpace
       ["plus", "minus", "times", "divided by"].any (fun w =>
         listPrefixOf w.data r &&
           (match (List.drop w.length r).dropWhile pySpace with
            | d :: _ => d.isDigit
            | [] => false))))
      || scanWrittenArith t

/-- Predicate `AdvancedAIAgent._is_mathematical`: any of the five patterns matches
the lowercased query (the third and fifth patterns are bare alternations of
literals, i.e. substring tests). -/
def isMathematical (q : String) : Bool :=
  scanArith (lowerS q)
    || scanFuncWord false (lowerS q)
    || ["calculate", "compute", "solve", "equation", "formula"].any
        (fun w => listContains w.data (lowerS q))
    || scanWrittenArith (lowerS q)
    || ["percentage", "percent", "%", "ratio", "proportion"].any
        (fun w => listContains w.data (lowerS q))

/-- Mapping `AdvancedAIAgent._map_domain_to_type`: the six-entry dict with default
`QueryType.TECHNICAL`. -/
def mapDomainToType (d : String) : QueryType :=
  if d = "security" then .security
  else if d = "architecture" then .architectural
  else if d = "optimization" then .optimization
  else if d = "compliance" then .compliance
  else if d = "innovation" then .innovation
  else if d = "business" then .strategic
  else .technical

/-- The keyword list of one complexity tier
(`self.complexity_indicators[level]`). -/
def indicatorsFor (lvl : String) : List String :=
  ((complexityIndicators.find? (fun p => p.1 == lvl)).map Prod.snd).getD []

/-- Does some indicator of tier `lvl` occur in the lowercased query? -/
def tierHit (lvl : String) (ql : List Char) : Bool :=
  (indicatorsFor lvl).any (fun w => listContains w.data ql)

/-- Method `AdvancedAIAgent._assess_complexity`: the first of
expert, advanced, intermediate, basic with an indicator present in the
lowercased query; otherwise the length heuristic on the raw query. -/
def assessComplexity (q : String) : String :=
  match ["expert", "advanced", "intermediate", "basic"].find?
      (fun lvl => tierHit lvl (lowerS q)) with
  | some lvl => lvl
  | none =>
    if 200 < q.length then "advanced"
    else if 100 < q.length then "intermediate"
    else "basic"

/-- Round a nonnegative rational to two decimals (ties to even) and print
it, modelling the `{max_score:.2f}` interpolation in the reasoning text. -/
def fmt2 (x : ℚ) : String :=
  let y := x * 100
  let f : ℤ := y.floor
  let r := y - (f : ℚ)
  let n : ℤ :=
    if r < 1 / 2 then f
    else if 1 / 2 < r then f + 1
    else if f % 2 = 0 then f else f + 1
  let ip := n / 100
  let fp := (n % 100).toNat
  toString ip ++ "." ++ (if fp < 10 then "0" ++ toString fp else toString fp)

/-- Method `AdvancedAIAgent.analyze_query`. -/
def analyzeQuery (q : String) : AnalysisResult :=
  match pickMax (domainScores q) with
  | some (d, s) =>
    if s < 1 / 5 ∧ isMathematical q = true then
      ⟨.mathematical, 19 / 20,
       "Detected mathematical expression or calculation request",
       assessComplexity q⟩
    else
      ⟨mapDomainToType d, min (19 / 20) (s * 2),
       "Domain analysis identified: " ++ d ++ " (score: " ++ fmt2 s ++ ")",
       assessComplexity q⟩
  | none =>
    if isMathematical q = true then
      ⟨.mathematical, 19 / 20,
       "Detected mathematical expression or calculation request",
       assessComplexity q⟩
    else
      ⟨.general, 7 / 10, "Domain analysis identified: general",
       assessComplexity q⟩

/-- The five operator characters of the arithmetic regex
`(\d+(?:\.\d+)?)\s*([\+\-\*/\^])\s*(\d+(?:\.\d+)?)`, as an enumeration
(the `operations` dict of `generate_mathematical_response` is total on
exactly these keys). -/
inductive ArithOp
  | add
  | sub
  | mul
  | div
  | pow
deriving DecidableEq

/-- The operator character each `ArithOp` stands for. -/
def arithOpChar : ArithOp → Char
  | .add => '+'
  | .sub => '-'
  | .mul => '*'
  | .div => '/'
  | .pow => '^'

/-- Decode a character of the regex class `[\+\-\*/\^]`. -/
def charToOp (c : Char) : Option ArithOp :=
  if c = '+' then some .add
  else if c = '-' then some .sub
  else if c = '*' then some .mul
  else if c = '/' then some .div
  else if c = '^' then some .pow
  else none

/-- Numeric value of a digit string. -/
def digitsVal (ds : List Char) : Nat :=
  ds.foldl (fun a c => a * 10 + (c.toNat - '0'.toNat)) 0

/-- Greedy match of `\d+(?:\.\d+)?` at the head of `s`, returning the
parsed value and the unconsumed rest.  The value returned here is the
exact rational denoted by the matched text; Python's `float()` conversion
of that text — rounding to double precision, saturating to infinity from
the overflow threshold on — is modelled by `pyFloatOfRat` and applied at
the float level, while the exact level uses the text's value directly.  Greediness needs no backtracking: after
the group the regexes continue with `\s*` and an operator / literal word,
and a digit or a dot can satisfy neither, so a shorter take of `\d+` or of
the fractional part can never succeed where the maximal take fails. -/
def parseNum (s : List Char) : Option (ℚ × List Char) :=
  match s.takeWhile Char.isDigit with
  | [] => none
  | ds =>
    let r := s.drop ds.length
    let ip : ℚ := (digitsVal ds : ℚ)
    match r with
    | c :: r2 =>
      if c = '.' then
        match r2.takeWhile Char.isDigit with
        | [] => some (ip, r)
        | fs => some (ip + (digitsVal fs : ℚ) / (10 : ℚ) ^ fs.length,
                      r2.drop fs.length)
      else some (ip, r)
    | [] => some (ip, [])

/-- Attempt the full arithmetic regex at the start of `s`. -/
def arithAt (s : List Char) : Option (ℚ × ArithOp × ℚ) :=
  match parseNum s with
  | none => none
  | some (n1, r1) =>
    match r1.dropWhile pySpace with
    | [] => none
    | o :: r3 =>
      match charToOp o with
      | none => none
      | some op =>
        match parseNum (r3.dropWhile pySpace) with
        | none => none
        | some (n2, _) => some (n1, op, n2)

/-- Model of `re.search` for the arithmetic regex: try each start position from the
left, exactly as the regex engine does. -/
def extractArith : List Char → Option (ℚ × ArithOp × ℚ)
  | [] => none
  | c :: t =>
    match arithAt (c :: t) with
    | some r => some r
    | none => extractArith t

/-- Attempt `(\d+(?:\.\d+)?)\s*(?:percent|%)\s*of\s*(\d+(?:\.\d+)?)` at the
start of `s` (the two alternatives start with distinct characters, so the
alternation is deterministic). -/
def percentAt (s : List Char) : Option (ℚ × ℚ) :=
  match parseNum s with
  | none => none
  | some (p, r1) =>
    let r2 := r1.dropWhile pySpace
    let r3 : Option (List Char) :=
      if listPrefixOf "percent".data r2 then some (r2.drop 7)
      else if listPrefixOf "%".data r2 then some (r2.drop 1)
      else none
    match r3 with
    | none => none
    | some r3 =>
      let r4 := r3.dropWhile pySpace
      if listPrefixOf "of".data r4 then
        match parseNum ((r4.drop 2).dropWhile pySpace) with
        | none => none
        | some (t, _) => some (p, t)
      else none

/-- Model of `re.search` for the percentage regex. -/
def extractPercent : List Char → Option (ℚ × ℚ)
  | [] => none
  | c :: t =>
    match percentAt (c :: t) with
    | some r => some r
    | none => extractPercent t

/-- Python `x ** y` on the parsed operands, idealised over ℚ: exact for
integer exponents.  For a non-integer exponent Python computes an
irrational real power, which has no rational value; the embedding returns
0 there, used consistently by the result and its verification, and no
theorem below relies on that branch's value.  This exact level deliberately
omits the `OverflowError` that CPython's float power raises beyond the
double range; `pfPow` below models it. -/
def ratPow (x y : ℚ) : ℚ :=
  if y.den = 1 then
    if 0 ≤ y.num then x ^ y.num.toNat else (x ^ (-y.num).toNat)⁻¹
  else 0

/-- The `operations` dict of `generate_mathematical_response` at the exact
level: the division lambda returns the string
`"undefined (division by zero)"` instead of a number when the divisor is
zero.  Double saturation to infinity and the power overflow error are
modelled by `applyOpF` below. -/
def applyOp : ArithOp → ℚ → ℚ → Sum ℚ String
  | .add, x, y => .inl (x + y)
  | .sub, x, y => .inl (x - y)
  | .mul, x, y => .inl (x * y)
  | .div, x, y => if y ≠ 0 then .inl (x / y) else .inr "undefined (division by zero)"
  | .pow, x, y => .inl (ratPow x y)

/-- Method `AdvancedAIAgent._verify_calculation` at the exact level:
recompute the operation from scratch and compare with the reported result
within 0.001 (`verifyCalculationF` below is the float-faithful version). -/
def verifyCalculation (n1 : ℚ) (op : ArithOp) (n2 : ℚ) (result : Sum ℚ String) :
    String :=
  match result with
  | .inr _ => "Cannot verify due to mathematical error"
  | .inl r =>
    match op with
    | .add =>
      if |n1 + n2 - r| < 1 / 1000 then "✓ Calculation verified"
      else "⚠ Verification inconclusive"
    | .sub =>
      if |n1 - n2 - r| < 1 / 1000 then "✓ Calculation verified"
      else "⚠ Verification inconclusive"
    | .mul =>
      if |n1 * n2 - r| < 1 / 1000 then "✓ Calculation verified"
      else "⚠ Verification inconclusive"
    | .div =>
      if n2 ≠ 0 ∧ |n1 / n2 - r| < 1 / 1000 then "✓ Calculation verified"
      else "⚠ Verification inconclusive"
    | .pow =>
      if |ratPow n1 n2 - r| < 1 / 1000 then "✓ Calculation verified"
      else "⚠ Verification inconclusive"

/-- The outcome of `generate_mathematical_response`, with the template
prose abstracted away: `arith n1 op n2 r v` stands for the multi-line
`Mathematical Analysis` text whose `Result:` line carries `r` and whose
`Verification:` line carries `v`; `mathError m` stands for the single line
`"Mathematical Error: " ++ m`; `percentage p t r` for the
`Percentage Calculation` text reporting `r`; `advisory` for the generic
`Advanced Mathematical Processor` fallback prose. -/
inductive MathResponse
  | arith (n1 : ℚ) (op : ArithOp) (n2 : ℚ) (result : ℚ) (verification : String)
  | mathError (message : String)
  | percentage (percent total result : ℚ)
  | advisory
deriving DecidableEq

/-- Method `AdvancedAIAgent.generate_mathematical_response` at the exact
level (see `generateMathematicalResponseF` for the float-faithful
refinement).  The guard mirrors
`operator in operations and operator != '/' or (operator == '/' and num2 != 0)`
(Python precedence: a disjunction; `operator in operations` is always
true).  The arithmetic regex runs on the raw query, the percentage regex on
the lowercased one, exactly as in the source. -/
def generateMathematicalResponse (q : String) : MathResponse :=
  match extractArith q.data with
  | some (n1, op, n2) =>
    if (op ≠ .div) ∨ (op = .div ∧ n2 ≠ 0) then
      match applyOp op n1 n2 with
      | .inl r => .arith n1 op n2 r (verifyCalculation n1 op n2 (.inl r))
      | .inr m => .mathError m
    else
      match applyOp op n1 n2 with
      | .inr m => .mathError m
      | .inl _ => .advisory
  | none =>
    match extractPercent (lowerS q) with
    | some (p, t) => .percentage p t ((p / 100) * t)
    | none => .advisory

/-- Auxiliary power 2^32, kept as a separate constant so that the overflow
threshold below is built by shallow repeated squaring (cheap to evaluate in
the kernel). -/
def twoPow32 : ℚ := (2 : ℚ) ^ (32 : ℕ)

/-- Auxiliary power 2^1024 by repeated squaring of `twoPow32`. -/
def twoPow1024 : ℚ :=
  ((((twoPow32 ^ (2 : ℕ)) ^ (2 : ℕ)) ^ (2 : ℕ)) ^ (2 : ℕ)) ^ (2 : ℕ)

/-- The magnitude from which IEEE-754 round-to-nearest overflows a double
to infinity: 2^1024 − 2^970, half an ulp above DBL_MAX ≈ 1.7977e308 (see
`overflowThreshold_eq`). -/
def overflowThreshold : ℚ := twoPow1024 - twoPow1024 / (2 : ℚ) ^ (54 : ℕ)

/-- The uncaught exception CPython's float `**` raises when its result
exceeds the double range. -/
inductive PyError
  | overflowError
deriving DecidableEq

/-- A CPython float as the responder observes it: a finite value (carried
exactly — rounding of in-range values to 53-bit precision is idealised,
which affects no statement below since the code only ever compares a float
against an identical recomputation of itself), positive or negative
infinity, or nan. -/
inductive PyFloat
  | finite (q : ℚ)
  | inf
  | neginf
  | nan
deriving DecidableEq

/-- Conversion of an exact value to a double: saturates to ±infinity from
the IEEE overflow threshold on, as both `float()` of a long literal and the
result of a double arithmetic operation do; in-range values are kept
exact. -/
def pyFloatOfRat (q : ℚ) : PyFloat :=
  if overflowThreshold ≤ q then .inf
  else if q ≤ -overflowThreshold then .neginf
  else .finite q

/-- Double addition: overflow saturates to infinity (CPython float `+`
never raises), `inf + (-inf)` is nan, nan propagates. -/
def pfAdd : PyFloat → PyFloat → PyFloat
  | .nan, _ => .nan
  | _, .nan => .nan
  | .inf, .neginf => .nan
  | .neginf, .inf => .nan
  | .inf, _ => .inf
  | _, .inf => .inf
  | .neginf, _ => .neginf
  | _, .neginf => .neginf
  | .finite x, .finite y => pyFloatOfRat (x + y)

/-- Double subtraction: `inf - inf` is nan — the case that makes
`_verify_calculation` inconclusive after an overflow — and nan
propagates. -/
def pfSub : PyFloat → PyFloat → PyFloat
  | .nan, _ => .nan
  | _, .nan => .nan
  | .inf, .inf => .nan
  | .neginf, .neginf => .nan
  | .inf, _ => .inf
  | .neginf, _ => .neginf
  | _, .inf => .neginf
  | _, .neginf => .inf
  | .finite x, .finite y => pyFloatOfRat (x - y)

/-- Double multiplication: overflow saturates to infinity (CPython float
`*` never raises), `0 * inf` is nan, nan propagates. -/
def pfMul : PyFloat → PyFloat → PyFloat
  | .nan, _ => .nan
  | _, .nan => .nan
  | .finite x, .inf => if x = 0 then .nan else if 0 < x then .inf else .neginf
  | .finite x, .neginf => if x = 0 then .nan else if 0 < x then .neginf else .inf
  | .inf, .finite y => if y = 0 then .nan else if 0 < y then .inf else .neginf
  | .neginf, .finite y => if y = 0 then .nan else if 0 < y then .neginf else .inf
  | .inf, .inf => .inf
  | .inf, .neginf => .neginf
  | .neginf, .inf => .neginf
  | .neginf, .neginf => .inf
  | .finite x, .finite y => pyFloatOfRat (x * y)

/-- Double division.  Every call site guards the divisor against zero (the
`operations` lambda and the `num2 != 0` conjunct of `_verify_calculation`),
so the zero-divisor rows — where CPython would raise `ZeroDivisionError` —
are unreachable and modelled as nan. -/
def pfDiv : PyFloat → PyFloat → PyFloat
  | .nan, _ => .nan
  | _, .nan => .nan
  | .inf, .inf => .nan
  | .inf, .neginf => .nan
  | .neginf, .inf => .nan
  | .neginf, .neginf => .nan
  | .inf, .finite y => if 0 ≤ y then .inf else .neginf
  | .neginf, .finite y => if 0 ≤ y then .neginf else .inf
  | .finite _, .inf => .finite 0
  | .finite _, .neginf => .finite 0
  | .finite x, .finite y => if y = 0 then .nan else pyFloatOfRat (x / y)

/-- CPython float `**`: on finite operands with an integer exponent the
exact power, except that a result beyond the double range raises
`OverflowError` instead of returning (the behavior the exact-level `ratPow`
idealises away); an infinite operand follows IEEE (no exception).  The
regex only ever supplies nonnegative operands, so the negative-base,
negative-exponent and nan rows are unreachable from the generator; the
non-integer-exponent value (an irrational real power) is represented by
the sentinel 0, used consistently by the result and its verification and
relied on by no statement below. -/
def pfPow : PyFloat → PyFloat → Except PyError PyFloat
  | .nan, _ => .ok .nan
  | _, .nan => .ok .nan
  | .neginf, _ => .ok .nan
  | _, .neginf => .ok (.finite 0)
  | .inf, .finite y => .ok (if y = 0 then .finite 1 else if 0 < y then .inf else .finite 0)
  | .finite x, .inf => .ok (if |x| = 1 then .finite 1 else if 1 < |x| then .inf else .finite 0)
  | .inf, .inf => .ok .inf
  | .finite x, .finite y =>
    if y.den = 1 then
      if 0 ≤ y.num then
        if overflowThreshold ≤ |x ^ y.num.toNat| then .error .overflowError
        else .ok (.finite (x ^ y.num.toNat))
      else .ok (.finite (x ^ (-y.num).toNat)⁻¹)
    else .ok (.finite 0)

/-- Double absolute value. -/
def pfAbs : PyFloat → PyFloat
  | .finite q => .finite |q|
  | .inf => .inf
  | .neginf => .inf
  | .nan => .nan

/-- Double `<`: false whenever an operand is nan — which is why
`abs(inf - inf) < 0.001` is false and the verification falls through to
the inconclusive variant. -/
def pfLt : PyFloat → PyFloat → Bool
  | .nan, _ => false
  | _, .nan => false
  | .finite x, .finite y => decide (x < y)
  | .finite _, .inf => true
  | .inf, _ => false
  | .neginf, .neginf => false
  | .neginf, _ => true
  | _, .neginf => false

/-- The `operations` dict at the float level: `+`, `-`, `*` saturate,
`/` returns the `"undefined (division by zero)"` string for a zero
divisor, and `**` can raise `OverflowError`. -/
def applyOpF : ArithOp → PyFloat → PyFloat → Except PyError (Sum PyFloat String)
  | .add, x, y => .ok (.inl (pfAdd x y))
  | .sub, x, y => .ok (.inl (pfSub x y))
  | .mul, x, y => .ok (.inl (pfMul x y))
  | .div, x, y =>
    .ok (if y ≠ .finite 0 then .inl (pfDiv x y)
         else .inr "undefined (division by zero)")
  | .pow, x, y => (pfPow x y).map Sum.inl

/-- Method `AdvancedAIAgent._verify_calculation` at the float level: the
recomputation of `num1 ** num2` in the `'^'` branch can itself raise
`OverflowError` (in the reachable flow it repeats the main computation, so
it raises only when the main one would have). -/
def verifyCalculationF (n1 : PyFloat) (op : ArithOp) (n2 : PyFloat)
    (result : Sum PyFloat String) : Except PyError String :=
  match result with
  | .inr _ => .ok "Cannot verify due to mathematical error"
  | .inl r =>
    match op with
    | .add =>
      .ok (if pfLt (pfAbs (pfSub (pfAdd n1 n2) r)) (.finite (1 / 1000)) then
          "✓ Calculation verified"
        else "⚠ Verification inconclusive")
    | .sub =>
      .ok (if pfLt (pfAbs (pfSub (pfSub n1 n2) r)) (.finite (1 / 1000)) then
          "✓ Calculation verified"
        else "⚠ Verification inconclusive")
    | .mul =>
      .ok (if pfLt (pfAbs (pfSub (pfMul n1 n2) r)) (.finite (1 / 1000)) then
          "✓ Calculation verified"
        else "⚠ Verification inconclusive")
    | .div =>
      .ok (if n2 ≠ .finite 0
            ∧ pfLt (pfAbs (pfSub (pfDiv n1 n2) r)) (.finite (1 / 1000)) = true then
          "✓ Calculation verified"
        else "⚠ Verification inconclusive")
    | .pow =>
      match pfPow n1 n2 with
      | .error e => .error e
      | .ok r2 =>
        .ok (if pfLt (pfAbs (pfSub r2 r)) (.finite (1 / 1000)) then
            "✓ Calculation verified"
          else "⚠ Verification inconclusive")

/-- The outcome of `generate_mathematical_response` at the float level,
abstracting template prose as in `MathResponse` but with float-valued
numeric fields. -/
inductive MathResponseF
  | arith (n1 : PyFloat) (op : ArithOp) (n2 : PyFloat) (result : PyFloat)
      (verification : String)
  | mathError (message : String)
  | percentage (percent total result : PyFloat)
  | advisory
deriving DecidableEq

instance : DecidableEq (Except PyError MathResponseF) := fun x y =>
  match x, y with
  | .error e1, .error e2 =>
    if h : e1 = e2 then isTrue (congrArg Except.error h)
    else isFalse (fun he => h (Except.error.inj he))
  | .ok a1, .ok a2 =>
    if h : a1 = a2 then isTrue (congrArg Except.ok h)
    else isFalse (fun he => h (Except.ok.inj he))
  | .error _, .ok _ => isFalse (fun he => Except.noConfusion he)
  | .ok _, .error _ => isFalse (fun he => Except.noConfusion he)

/-- Method `AdvancedAIAgent.generate_mathematical_response` at the float
level: `extractArith` recovers the exact value of the matched text,
`pyFloatOfRat` performs the `float()` conversion (saturating long
literals), the arithmetic runs on doubles, and an `Except.error` outcome
is an `OverflowError` escaping the method — the process then dies with a
traceback instead of printing a response. -/
def generateMathematicalResponseF (q : String) : Except PyError MathResponseF :=
  match extractArith q.data with
  | some (x1, op, x2) =>
    if (op ≠ .div) ∨ (op = .div ∧ pyFloatOfRat x2 ≠ .finite 0) then
      match applyOpF op (pyFloatOfRat x1) (pyFloatOfRat x2) with
      | .error e => .error e
      | .ok (.inl r) =>
        match verifyCalculationF (pyFloatOfRat x1) op (pyFloatOfRat x2) (.inl r) with
        | .error e => .error e
        | .ok v => .ok (.arith (pyFloatOfRat x1) op (pyFloatOfRat x2) r v)
      | .ok (.inr m) => .ok (.mathError m)
    else
      match applyOpF op (pyFloatOfRat x1) (pyFloatOfRat x2) with
      | .ok (.inr m) => .ok (.mathError m)
      | _ => .ok .advisory
  | none =>
    match extractPercent (lowerS q) with
    | some (p, t) =>
      .ok (.percentage (pyFloatOfRat p) (pyFloatOfRat t)
        (pfMul (pfDiv (pyFloatOfRat p) (.finite 100)) (pyFloatOfRat t)))
    | none => .ok .advisory

/-- A 200-digit string of nines: a numeric literal whose value is still far
below the double range, but whose square is far above it. -/
def bigNines : String := String.mk (List.replicate 200 '9')

/-- The exact value of `bigNines`. -/
def bigNinesVal : ℚ := (10 : ℚ) ^ (200 : ℕ) - 1

/-- The query multiplying two 200-digit operands: its float product
silently overflows to infinity. -/
def overflowProductQuery : String := bigNines ++ " * " ++ bigNines

/-- The process-level state a method of the agent could consult: the state
of the `random` module (used only by `generate_creative_response` through
`random.choice` over five phrases) and the wall clock (used only by
`generate_general_response` for its timestamp line). -/
structure AgentEnv where
  creativePick : Nat
  clock : String

/-- Method `AdvancedAIAgent.analyze_query` as it runs inside the process: the
method has the process state available but, as the translation shows, never
consults it — its result is a function of the query string alone. -/
def analyzeQueryIn (_ : AgentEnv) (q : String) : AnalysisResult :=
  analyzeQuery q

/-- The outcome of `process_query`, with template prose abstracted:
`needQuery` is the `"Please provide a specific query"` message, `math` the
mathematical generator's outcome, `general` the timestamped general
response, `creative` the randomly phrased creative response, and
`canned t a` the fixed template of every other query type. -/
inductive AgentResponse
  | needQuery
  | math (m : MathResponse)
  | general (a : AnalysisResult) (timestamp : String)
  | creative (a : AnalysisResult) (pick : Nat)
  | canned (t : QueryType) (a : AnalysisResult)
deriving DecidableEq

/-- Method `AdvancedAIAgent.process_query`: empty-after-strip queries short
circuit; otherwise the analysis routes through the `response_generators`
dispatch table (every `QueryType` is a key, so the `.get` default is never
taken). -/
def processQueryIn (env : AgentEnv) (q : String) : AgentResponse :=
  if q.data.all pySpace then .needQuery
  else
    let a := analyzeQueryIn env q
    match a.query_type with
    | .mathematical => .math (generateMathematicalResponse q)
    | .general => .general a env.clock
    | .creative => .creative a (env.creativePick % 5)
    | t => .canned t a

/-- Python whitespace-splitting of a query into words, with `cur` the
(reversed) word currently being read. -/
def pyWordsAux (cur : List Char) : List Char → List (List Char)
  | [] => if cur.isEmpty then [] else [cur.reverse]
  | c :: t =>
    if pySpace c then
      if cur.isEmpty then pyWordsAux [] t else cur.reverse :: pyWordsAux [] t
    else pyWordsAux (c :: cur) t

/-- Model of `query.split()`: the whitespace-separated words of a query. -/
def pyWords (s : List Char) : List (List Char) := pyWordsAux [] s

/-- Lookup `lookupScore d l`, i.e. `l[d]`, for the association-list model of
`domain_scores`. -/
def lookupScore (d : String) : List (String × ℚ) → Option ℚ
  | [] => none
  | (e, v) :: t => if e = d then some v else lookupScore d t

/-- The pattern table row of a domain (`self.query_patterns.get(d, [])`). -/
def domainPatterns (d : String) : List (String × String) :=
  ((queryPatterns.find? (fun p => p.1 == d)).map Prod.snd).getD []

theorem listPrefixOf_iff : ∀ n h : List Char, listPrefixOf n h = true ↔ n <+: h
  | [], h => by simp [listPrefixOf, List.nil_prefix]
  | c :: cs, [] => by simp [listPrefixOf]
  | c :: cs, d :: ds => by
    simp only [listPrefixOf, Bool.and_eq_true, beq_iff_eq, listPrefixOf_iff cs ds]
    constructor
    · rintro ⟨rfl, t, rfl⟩
      exact ⟨t, rfl⟩
    · rintro ⟨t, ht⟩
      injection ht with h1 h2
      exact ⟨h1, t, h2⟩

theorem listContains_iff : ∀ n h : List Char, listContains n h = true ↔ n <:+: h
  | n, [] => by
    simp [listContains, listPrefixOf_iff, List.infix_nil, List.prefix_nil]
  | n, c :: t => by
    simp only [listContains, Bool.or_eq_true, listPrefixOf_iff,
      listContains_iff n t, List.infix_cons_iff]

theorem pyWordsAux_infix :
    ∀ (s cur w : List Char), w ∈ pyWordsAux cur s → w <:+: (cur.reverse ++ s) := by
  intro s
  induction s with
  | nil =>
    intro cur w hw
    unfold pyWordsAux at hw
    split at hw
    · exact absurd hw (List.not_mem_nil w)
    · simp only [List.mem_singleton] at hw
      subst hw
      simp only [List.append_nil]
      exact List.infix_refl _
  | cons c t ih =>
    intro cur w hw
    unfold pyWordsAux at hw
    split at hw
    · split at hw
      · next hcur =>
        have h0 := ih [] w hw
        simp only [List.reverse_nil, List.nil_append] at h0
        have hcur' : cur = [] := by
          cases cur with
          | nil => rfl
          | cons a b => simp [List.isEmpty] at hcur
        subst hcur'
        simp only [List.reverse_nil, List.nil_append]
        exact h0.trans (List.suffix_cons c t).isInfix
      · rcases List.mem_cons.mp hw with rfl | hw2
        · exact (List.prefix_append _ _).isInfix
        · have h0 := ih [] w hw2
          simp only [List.reverse_nil, List.nil_append] at h0
          exact (h0.trans (List.suffix_cons c t).isInfix).trans
            (List.suffix_append _ _).isInfix
    · have h0 := ih (c :: cur) w hw
      simpa [List.append_assoc] using h0

theorem pyWords_infix (s w : List Char) (h : w ∈ pyWords s) : w <:+: s := by
  simpa using pyWordsAux_infix s [] w h

theorem lookupScore_mem (d : String) (v : ℚ) :
    ∀ l, lookupScore d l = some v → (d, v) ∈ l := by
  intro l
  induction l with
  | nil => intro h; cases h
  | cons e t ih =>
    obtain ⟨e1, e2⟩ := e
    intro h
    simp only [lookupScore] at h
    split at h
    · next heq =>
      cases h
      exact heq ▸ List.mem_cons_self _ _
    · exact List.mem_cons_of_mem _ (ih h)

theorem lookupScore_kwPhase_not_mem (ql : List Char) (d : String) :
    ∀ L : List (String × List String), d ∉ L.map Prod.fst →
      lookupScore d (L.filterMap (keywordEntry ql)) = none := by
  intro L
  induction L with
  | nil => intro _; rfl
  | cons p L ih =>
    intro h
    simp only [List.map_cons, List.mem_cons, not_or] at h
    obtain ⟨h1, h2⟩ := h
    by_cases hc : 0 < kwHits p.2 ql
    · have hke : keywordEntry ql p =
          some (p.1, (kwHits p.2 ql : ℚ) / (p.2.length : ℚ)) := by
        simp [keywordEntry, hc]
      rw [List.filterMap_cons_some hke]
      simp only [lookupScore]
      rw [if_neg (fun he => h1 he.symm)]
      exact ih h2
    · have hke : keywordEntry ql p = none := by
        simp [keywordEntry, hc]
      rw [List.filterMap_cons_none hke]
      exact ih h2

theorem lookupScore_kwPhase_mem (ql : List Char) (d : String) (kws : List String) :
    ∀ L : List (String × List String), (L.map Prod.fst).Nodup → (d, kws) ∈ L →
      lookupScore d (L.filterMap (keywordEntry ql)) =
        if 0 < kwHits kws ql then
          some ((kwHits kws ql : ℚ) / (kws.length : ℚ))
        else none := by
  intro L
  induction L with
  | nil => intro _ h; cases h
  | cons p L ih =>
    intro hnd hmem
    simp only [List.map_cons, List.nodup_cons] at hnd
    obtain ⟨hnd1, hnd2⟩ := hnd
    rcases List.mem_cons.mp hmem with heq | hmem
    · subst heq
      dsimp only at hnd1
      by_cases hc : 0 < kwHits kws ql
      · have hke : keywordEntry ql (d, kws) =
            some (d, (kwHits kws ql : ℚ) / (kws.length : ℚ)) := by
          simp [keywordEntry, hc]
        rw [List.filterMap_cons_some hke]
        simp only [lookupScore]
        simp [hc]
      · have hke : keywordEntry ql (d, kws) = none := by
          simp [keywordEntry, hc]
        rw [List.filterMap_cons_none hke,
          lookupScore_kwPhase_not_mem ql d L hnd1, if_neg hc]
    · have hd : d ∈ L.map Prod.fst :=
        List.mem_map.mpr ⟨(d, kws), hmem, rfl⟩
      have hne : p.1 ≠ d := fun he => hnd1 (he ▸ hd)
      by_cases hc : 0 < kwHits p.2 ql
      · have hke : keywordEntry ql p =
            some (p.1, (kwHits p.2 ql : ℚ) / (p.2.length : ℚ)) := by
          simp [keywordEntry, hc]
        rw [List.filterMap_cons_some hke]
        simp only [lookupScore]
        rw [if_neg hne]
        exact ih hnd2 hmem
      · have hke : keywordEntry ql p = none := by
          simp [keywordEntry, hc]
        rw [List.filterMap_cons_none hke]
        exact ih hnd2 hmem

theorem lookupScore_upsert (d e : String) (b : ℚ) :
    ∀ l, lookupScore d (upsertScore l e b) =
      if e = d then some (((lookupScore d l).getD 0) + b)
      else lookupScore d l := by
  intro l
  induction l with
  | nil =>
    simp only [upsertScore, lookupScore]
    split
    · simp
    · rfl
  | cons fv t ih =>
    obtain ⟨f, v⟩ := fv
    simp only [upsertScore]
    split
    · next hfe =>
      subst hfe
      by_cases hfd : f = d
      · subst hfd
        simp [lookupScore]
      · simp [lookupScore, if_neg hfd]
    · next hfe =>
      simp only [lookupScore]
      by_cases hfd : f = d
      · subst hfd
        have hed : ¬ e = f := fun he => hfe he.symm
        simp [if_neg hed, lookupScore]
      · simp only [if_neg hfd, ih]

theorem lookupScore_patFold_not_mem (ql : List Char) (d : String) :
    ∀ (P : List (String × List (String × String))) (base : List (String × ℚ)),
      d ∉ P.map Prod.fst →
      lookupScore d (P.foldl (patternStep ql) base) = lookupScore d base := by
  intro P
  induction P with
  | nil => intro base _; rfl
  | cons p P ih =>
    intro base h
    simp only [List.map_cons, List.mem_cons, not_or] at h
    obtain ⟨h1, h2⟩ := h
    simp only [List.foldl_cons]
    rw [ih _ h2]
    unfold patternStep
    split
    · rw [lookupScore_upsert, if_neg (fun he => h1 he.symm)]
    · rfl

theorem lookupScore_patFold_mem (ql : List Char) (d : String)
    (pats : List (String × String)) :
    ∀ (P : List (String × List (String × String))) (base : List (String × ℚ)),
      (P.map Prod.fst).Nodup → (d, pats) ∈ P →
      lookupScore d (P.foldl (patternStep ql) base) =
        if 0 < patternCount pats ql then
          some (((lookupScore d base).getD 0)
            + (patternCount pats ql : ℚ) * (3 / 10))
        else lookupScore d base := by
  intro P
  induction P with
  | nil => intro base _ h; cases h
  | cons p P ih =>
    intro base hnd hmem
    simp only [List.map_cons, List.nodup_cons] at hnd
    obtain ⟨hnd1, hnd2⟩ := hnd
    rcases List.mem_cons.mp hmem with heq | hmem
    · subst heq
      dsimp only at hnd1
      simp only [List.foldl_cons]
      rw [lookupScore_patFold_not_mem ql d P _ hnd1]
      by_cases hc : 0 < patternCount pats ql
      · have hps : patternStep ql base (d, pats) =
            upsertScore base d ((patternCount pats ql : ℚ) * (3 / 10)) := by
          simp [patternStep, hc]
        rw [hps, lookupScore_upsert, if_pos rfl, if_pos hc]
      · have hps : patternStep ql base (d, pats) = base := by
          simp [patternStep, hc]
        rw [hps, if_neg hc]
    · have hd : d ∈ P.map Prod.fst :=
        List.mem_map.mpr ⟨(d, pats), hmem, rfl⟩
      have hne : p.1 ≠ d := fun he => hnd1 (he ▸ hd)
      simp only [List.foldl_cons]
      rw [ih _ hnd2 hmem]
      have hlu : lookupScore d (patternStep ql base p) = lookupScore d base := by
        unfold patternStep
        split
        · rw [lookupScore_upsert, if_neg hne]
        · rfl
      rw [hlu]

theorem kwPhase_val_pos (ql : List Char) (L : List (String × List String)) :
    ∀ e ∈ L.filterMap (keywordEntry ql), 0 < e.2 := by
  intro e he
  rw [List.mem_filterMap] at he
  obtain ⟨p, _, hpe⟩ := he
  unfold keywordEntry at hpe
  split at hpe
  · next hpos =>
    cases hpe
    have hlen : 0 < p.2.length :=
      lt_of_lt_of_le hpos (List.countP_le_length _)
    exact div_pos (by exact_mod_cast hpos) (by exact_mod_cast hlen)
  · cases hpe

theorem upsert_val_pos (d : String) (b : ℚ) (hb : 0 < b) :
    ∀ l : List (String × ℚ), (∀ e ∈ l, 0 < e.2) →
      ∀ e ∈ upsertScore l d b, 0 < e.2 := by
  intro l
  induction l with
  | nil =>
    intro _ e he
    simp only [upsertScore, List.mem_singleton] at he
    subst he
    exact hb
  | cons fv t ih =>
    obtain ⟨f, v⟩ := fv
    intro hl e he
    simp only [upsertScore] at he
    split at he
    · rcases List.mem_cons.mp he with rfl | he
      · have : 0 < v := hl (f, v) (List.mem_cons_self _ _)
        exact add_pos this hb
      · exact hl e (List.mem_cons_of_mem _ he)
    · rcases List.mem_cons.mp he with rfl | he
      · exact hl (f, v) (List.mem_cons_self _ _)
      · exact ih (fun x hx => hl x (List.mem_cons_of_mem _ hx)) e he

theorem patFold_val_pos (ql : List Char) :
    ∀ (P : List (String × List (String × String))) (base : List (String × ℚ)),
      (∀ e ∈ base, 0 < e.2) →
      ∀ e ∈ P.foldl (patternStep ql) base, 0 < e.2 := by
  intro P
  induction P with
  | nil => intro base hb e he; exact hb e he
  | cons p P ih =>
    intro base hb e he
    simp only [List.foldl_cons] at he
    refine ih _ ?_ e he
    unfold patternStep
    split
    · next hpos =>
      exact upsert_val_pos p.1 _
        (mul_pos (by exact_mod_cast hpos) (by norm_num)) base hb
    · exact hb

theorem domainScores_val_pos (q : String) :
    ∀ e ∈ domainScores q, 0 < e.2 :=
  patFold_val_pos (lowerS q) queryPatterns _
    (kwPhase_val_pos (lowerS q) knowledgeDomains)

theorem kwPhase_keys (ql : List Char) (L : List (String × List String)) :
    ∀ e ∈ L.filterMap (keywordEntry ql), e.1 ∈ L.map Prod.fst := by
  intro e he
  rw [List.mem_filterMap] at he
  obtain ⟨p, hp, hpe⟩ := he
  unfold keywordEntry at hpe
  split at hpe
  · cases hpe
    exact List.mem_map.mpr ⟨p, hp, rfl⟩
  · cases hpe

theorem upsert_keys (d : String) (b : ℚ) :
    ∀ (l : List (String × ℚ)) (e), e ∈ upsertScore l d b →
      e.1 ∈ l.map Prod.fst ∨ e.1 = d := by
  intro l
  induction l with
  | nil =>
    intro e he
    simp only [upsertScore, List.mem_singleton] at he
    subst he
    exact Or.inr rfl
  | cons fv t ih =>
    obtain ⟨f, v⟩ := fv
    intro e he
    simp only [upsertScore] at he
    split at he
    · rcases List.mem_cons.mp he with rfl | he
      · exact Or.inl (by simp)
      · exact Or.inl (by simp [List.mem_map.mpr ⟨e, he, rfl⟩])
    · rcases List.mem_cons.mp he with rfl | he
      · exact Or.inl (by simp)
      · rcases ih e he with h | h
        · exact Or.inl (by simp [h])
        · exact Or.inr h

theorem patFold_keys (ql : List Char) :
    ∀ (P : List (String × List (String × String))) (base : List (String × ℚ)) (e),
      e ∈ P.foldl (patternStep ql) base →
      e.1 ∈ base.map Prod.fst ∨ e.1 ∈ P.map Prod.fst := by
  intro P
  induction P with
  | nil => intro base e he; exact Or.inl (List.mem_map.mpr ⟨e, he, rfl⟩)
  | cons p P ih =>
    intro base e he
    simp only [List.foldl_cons] at he
    rcases ih _ e he with h | h
    · obtain ⟨x, hx, hxe⟩ := List.mem_map.mp h
      revert hx
      unfold patternStep
      split
      · intro hx
        rcases upsert_keys p.1 _ base x hx with h2 | h2
        · exact Or.inl (hxe ▸ h2)
        · refine Or.inr ?_
          simp only [List.map_cons, List.mem_cons]
          exact Or.inl (hxe ▸ h2)
      · intro hx
        exact Or.inl (hxe ▸ List.mem_map.mpr ⟨x, hx, rfl⟩)
    · refine Or.inr ?_
      simp only [List.map_cons, List.mem_cons]
      exact Or.inr h

theorem domainScores_keys (q : String) :
    ∀ e ∈ domainScores q, e.1 ∈ knowledgeDomains.map Prod.fst := by
  intro e he
  rcases patFold_keys (lowerS q) queryPatterns _ e he with h | h
  · obtain ⟨e', he', heq⟩ := List.mem_map.mp h
    exact heq ▸ kwPhase_keys (lowerS q) knowledgeDomains e' he'
  · revert h
    have : ∀ x, x ∈ queryPatterns.map Prod.fst →
        x ∈ knowledgeDomains.map Prod.fst := by decide
    exact this e.1

theorem foldl_maxStep_mem :
    ∀ (t : List (String × ℚ)) (b), t.foldl maxStep b = b ∨ t.foldl maxStep b ∈ t := by
  intro t
  induction t with
  | nil => intro b; exact Or.inl rfl
  | cons y t ih =>
    intro b
    simp only [List.foldl_cons]
    rcases ih (maxStep b y) with h | h
    · rw [h]
      unfold maxStep
      split
      · exact Or.inr (List.mem_cons_self _ _)
      · exact Or.inl rfl
    · exact Or.inr (List.mem_cons_of_mem _ h)

theorem foldl_maxStep_le :
    ∀ (t : List (String × ℚ)) (b), b.2 ≤ (t.foldl maxStep b).2 := by
  intro t
  induction t with
  | nil => intro b; exact le_refl _
  | cons y t ih =>
    intro b
    simp only [List.foldl_cons]
    refine le_trans ?_ (ih (maxStep b y))
    unfold maxStep
    split
    · next h => exact le_of_lt h
    · exact le_refl _

theorem foldl_maxStep_ge :
    ∀ (t : List (String × ℚ)) (b) (y), y ∈ t → y.2 ≤ (t.foldl maxStep b).2 := by
  intro t
  induction t with
  | nil => intro b y hy; cases hy
  | cons z t ih =>
    intro b y hy
    simp only [List.foldl_cons]
    rcases List.mem_cons.mp hy with rfl | hy
    · refine le_trans ?_ (foldl_maxStep_le t (maxStep b y))
      unfold maxStep
      split
      · exact le_refl _
      · next h => exact le_of_not_lt h
    · exact ih (maxStep b z) y hy

theorem pickMax_spec (l : List (String × ℚ)) (x : String × ℚ)
    (h : pickMax l = some x) : x ∈ l ∧ ∀ y ∈ l, y.2 ≤ x.2 := by
  cases l with
  | nil => cases h
  | cons b t =>
    simp only [pickMax, Option.some.injEq] at h
    subst h
    constructor
    · rcases foldl_maxStep_mem t b with h | h
      · rw [h]; exact List.mem_cons_self _ _
      · exact List.mem_cons_of_mem _ h
    · intro y hy
      rcases List.mem_cons.mp hy with rfl | hy
      · exact foldl_maxStep_le t y
      · exact foldl_maxStep_ge t b y hy

theorem pickMax_eq_none (l : List (String × ℚ)) :
    pickMax l = none ↔ l = [] := by
  cases l <;> simp [pickMax]

theorem lookup_domainScores (q : String) (d : String) (kws : List String)
    (h : (d, kws) ∈ knowledgeDomains) :
    lookupScore d (domainScores q) =
      if 0 < kwHits kws (lowerS q)
          ∨ 0 < patternCount (domainPatterns d) (lowerS q) then
        some ((kwHits kws (lowerS q) : ℚ) / (kws.length : ℚ)
          + (patternCount (domainPatterns d) (lowerS q) : ℚ) * (3 / 10))
      else none := by
  have hndK : (knowledgeDomains.map Prod.fst).Nodup := by decide
  have hndP : (queryPatterns.map Prod.fst).Nodup := by decide
  have hkw := lookupScore_kwPhase_mem (lowerS q) d kws knowledgeDomains hndK h
  show lookupScore d
      (queryPatterns.foldl (patternStep (lowerS q))
        (knowledgeDomains.filterMap (keywordEntry (lowerS q)))) = _
  have hcases :
      (d ∉ queryPatterns.map Prod.fst ∧ domainPatterns d = [])
        ∨ (d, domainPatterns d) ∈ queryPatterns := by
    simp only [knowledgeDomains, List.mem_cons, List.not_mem_nil, or_false,
      Prod.mk.injEq] at h
    rcases h with ⟨rfl, _⟩ | ⟨rfl, _⟩ | ⟨rfl, _⟩ | ⟨rfl, _⟩ | ⟨rfl, _⟩ | ⟨rfl, _⟩
    · exact Or.inl (by decide)
    · exact Or.inr (by decide)
    · exact Or.inr (by decide)
    · exact Or.inl (by decide)
    · exact Or.inr (by decide)
    · exact Or.inr (by decide)
  rcases hcases with ⟨hp, hdp⟩ | hpm
  · rw [lookupScore_patFold_not_mem (lowerS q) d queryPatterns _ hp, hkw, hdp]
    rcases Nat.eq_zero_or_pos (kwHits kws (lowerS q)) with hk | hk <;>
      simp [hk, patternCount]
  · rw [lookupScore_patFold_mem (lowerS q) d (domainPatterns d) queryPatterns _
      hndP hpm, hkw]
    rcases Nat.eq_zero_or_pos (kwHits kws (lowerS q)) with hk | hk <;>
      rcases Nat.eq_zero_or_pos (patternCount (domainPatterns d) (lowerS q))
        with hc | hc <;>
      simp [hk, hc]

/-- Reduction of `analyze_query` on the branch where `domain_scores` is
nonempty and `max` returns the entry `(d, s)`. -/
theorem analyzeQuery_some (q : String) (d : String) (s : ℚ)
    (hpm : pickMax (domainScores q) = some (d, s)) :
    analyzeQuery q =
      if s < 1 / 5 ∧ isMathematical q = true then
        ⟨.mathematical, 19 / 20,
         "Detected mathematical expression or calculation request",
         assessComplexity q⟩
      else
        ⟨mapDomainToType d, min (19 / 20) (s * 2),
         "Domain analysis identified: " ++ d ++ " (score: " ++ fmt2 s ++ ")",
         assessComplexity q⟩ := by
  unfold analyzeQuery
  rw [hpm]

/-- Reduction of `analyze_query` on the branch where `domain_scores` is empty. -/
theorem analyzeQuery_none (q : String)
    (hpm : pickMax (domainScores q) = none) :
    analyzeQuery q =
      if isMathematical q = true then
        ⟨.mathematical, 19 / 20,
         "Detected mathematical expression or calculation request",
         assessComplexity q⟩
      else
        ⟨.general, 7 / 10, "Domain analysis identified: general",
         assessComplexity q⟩ := by
  unfold analyzeQuery
  rw [hpm]

/-- C1: for every query for which at least one domain has nonzero score
(i.e. the `domain_scores` dict is nonempty — entries exist exactly for the
domains with nonzero combined score, as the fourth conjunct shows),
`analyze_query` scores every domain as keyword hits over the FULL keyword
list size plus 0.3 per matching regex on top of the existing (or default 0)
keyword score, selects a maximum-score domain, and when that maximum is at
least 0.2 returns that domain's query type with confidence
`min(0.95, score * 2)`. -/
theorem c1_scoring_and_selection (q : String) (h : domainScores q ≠ []) :
    ∃ d s, pickMax (domainScores q) = some (d, s) ∧
      (d, s) ∈ domainScores q ∧
      (∀ e ∈ domainScores q, e.2 ≤ s) ∧
      (∀ d' kws, (d', kws) ∈ knowledgeDomains →
        lookupScore d' (domainScores q) =
          if 0 < kwHits kws (lowerS q)
              ∨ 0 < patternCount (domainPatterns d') (lowerS q) then
            some ((kwHits kws (lowerS q) : ℚ) / (kws.length : ℚ)
              + (patternCount (domainPatterns d') (lowerS q) : ℚ) * (3 / 10))
          else none) ∧
      (1 / 5 ≤ s →
        analyzeQuery q = ⟨mapDomainToType d, min (19 / 20) (s * 2),
          "Domain analysis identified: " ++ d ++ " (score: " ++ fmt2 s ++ ")",
          assessComplexity q⟩) := by
  cases hpm : pickMax (domainScores q) with
  | none => exact absurd ((pickMax_eq_none _).mp hpm) h
  | some x =>
    obtain ⟨d, s⟩ := x
    obtain ⟨hmem, hmax⟩ := pickMax_spec _ _ hpm
    refine ⟨d, s, rfl, hmem, hmax, ?_, ?_⟩
    · intro d' kws hk
      exact lookup_domainScores q d' kws hk
    · intro hs
      have hns : ¬(s < 1 / 5 ∧ isMathematical q = true) := by
        rintro ⟨h1, _⟩
        exact absurd h1 (not_lt.mpr hs)
      rw [analyzeQuery_some q d s hpm, if_neg hns]

/-- Witness for C1 at the query `"design architecture"`: both keyword hits
(2 of 25) and a pattern bonus (one `design.*architecture` match) arise, the
winning score 19/50 is above 0.2, and the architecture domain is returned
with confidence `min(0.95, 19/25)`. -/
theorem c1_scoring_and_selection_witness :
    domainScores "design architecture" ≠ [] ∧
    ∃ d s, pickMax (domainScores "design architecture") = some (d, s) ∧
      (d, s) ∈ domainScores "design architecture" ∧
      (∀ e ∈ domainScores "design architecture", e.2 ≤ s) ∧
      (∀ d' kws, (d', kws) ∈ knowledgeDomains →
        lookupScore d' (domainScores "design architecture") =
          if 0 < kwHits kws (lowerS "design architecture")
              ∨ 0 < patternCount (domainPatterns d')
                  (lowerS "design architecture") then
            some ((kwHits kws (lowerS "design architecture") : ℚ)
                / (kws.length : ℚ)
              + (patternCount (domainPatterns d')
                  (lowerS "design architecture") : ℚ) * (3 / 10))
          else none) ∧
      (1 / 5 ≤ s →
        analyzeQuery "design architecture" =
          ⟨mapDomainToType d, min (19 / 20) (s * 2),
           "Domain analysis identified: " ++ d ++ " (score: " ++ fmt2 s ++ ")",
           assessComplexity "design architecture"⟩) :=
  ⟨by decide, c1_scoring_and_selection "design architecture" (by decide)⟩

/-- C2: every analysis result has confidence in (0, 0.95] — within [0, 0.95]
and never 0; a result exists for every query since `analyzeQuery` is a
total function whose every branch is covered here. -/
theorem c2_confidence_bounds (q : String) :
    0 < (analyzeQuery q).confidence ∧ (analyzeQuery q).confidence ≤ 19 / 20 := by
  cases hpm : pickMax (domainScores q) with
  | none =>
    rw [analyzeQuery_none q hpm]
    split
    · exact ⟨by norm_num, by norm_num⟩
    · exact ⟨by norm_num, by norm_num⟩
  | some x =>
    obtain ⟨d, s⟩ := x
    have hmem := (pickMax_spec _ _ hpm).1
    have hs : 0 < s := domainScores_val_pos q (d, s) hmem
    rw [analyzeQuery_some q d s hpm]
    split
    · exact ⟨by norm_num, by norm_num⟩
    · constructor
      · show 0 < min (19 / 20) (s * 2)
        exact lt_min (by norm_num) (by positivity)
      · show min (19 / 20) (s * 2) ≤ 19 / 20
        exact min_le_left _ _

/-- C3: when the winning score is below 0.2 and the mathematical detector
fires, the result is the Mathematical type with fixed confidence 0.95; when
no domain scored, the mathematical detector decides between Mathematical
(0.95) and General (0.7); and both `""` and `"   "` give the General result
with confidence 0.7. -/
theorem c3_mathematical_override_and_fallback :
    (∀ (q : String) (d : String) (s : ℚ),
      pickMax (domainScores q) = some (d, s) → s < 1 / 5 →
      isMathematical q = true →
      analyzeQuery q = ⟨.mathematical, 19 / 20,
        "Detected mathematical expression or calculation request",
        assessComplexity q⟩)
    ∧ (∀ q : String, domainScores q = [] → isMathematical q = true →
      analyzeQuery q = ⟨.mathematical, 19 / 20,
        "Detected mathematical expression or calculation request",
        assessComplexity q⟩)
    ∧ (∀ q : String, domainScores q = [] → isMathematical q = false →
      analyzeQuery q = ⟨.general, 7 / 10,
        "Domain analysis identified: general", assessComplexity q⟩)
    ∧ analyzeQuery "" = ⟨.general, 7 / 10,
        "Domain analysis identified: general", "basic"⟩
    ∧ analyzeQuery "   " = ⟨.general, 7 / 10,
        "Domain analysis identified: general", "basic"⟩ := by
  refine ⟨?_, ?_, ?_, by decide, by decide⟩
  · intro q d s hpm hlt hm
    rw [analyzeQuery_some q d s hpm, if_pos ⟨hlt, hm⟩]
  · intro q h0 hm
    rw [analyzeQuery_none q ((pickMax_eq_none _).mpr h0), if_pos hm]
  · intro q h0 hm
    rw [analyzeQuery_none q ((pickMax_eq_none _).mpr h0),
      if_neg (by simp [hm])]

/-- Witness for C3 at `"ethics 2 + 2"`: the compliance domain wins with the
weak score 1/18 < 0.2, the arithmetic pattern fires, and the override
returns the Mathematical type with confidence 0.95. -/
theorem c3_mathematical_override_and_fallback_witness :
    pickMax (domainScores "ethics 2 + 2") = some ("compliance", 1 / 18)
    ∧ ((1 : ℚ) / 18) < 1 / 5
    ∧ isMathematical "ethics 2 + 2" = true
    ∧ analyzeQuery "ethics 2 + 2" = ⟨.mathematical, 19 / 20,
        "Detected mathematical expression or calculation request",
        assessComplexity "ethics 2 + 2"⟩ :=
  ⟨by decide, by decide, by decide,
   c3_mathematical_override_and_fallback.1 "ethics 2 + 2" "compliance"
     (1 / 18) (by decide) (by decide) (by decide)⟩

/-- The keyword list of a domain (`self.knowledge_domains[d]`). -/
def domainKeywords (d : String) : List String :=
  ((knowledgeDomains.find? (fun p => p.1 == d)).map Prod.snd).getD []

/-- C4's hypothesis made precise: the query splits into at least one word
and every whitespace-separated word of the lowercased query literally
belongs to the domain's keyword list. -/
def onlyWordsFrom (d : String) (q : String) : Prop :=
  pyWords (lowerS q) ≠ [] ∧
    ∀ w ∈ pyWords (lowerS q), w ∈ (domainKeywords d).map String.data

instance (d q : String) : Decidable (onlyWordsFrom d q) :=
  inferInstanceAs (Decidable (pyWords (lowerS q) ≠ [] ∧
    ∀ w ∈ pyWords (lowerS q), w ∈ (domainKeywords d).map String.data))

/-- Counterexample to C4 as stated: the one-word query `"architecture"`
consists only of words from the architecture domain's keyword list (and of
no other domain's), yet `analyze_query` returns the INNOVATION type —
the innovation keyword `"ar"` occurs as a substring of `"architecture"` and
1/19 beats architecture's 1/25 — not the ARCHITECTURAL type the claim
requires. -/
theorem c4_counterexample :
    onlyWordsFrom "architecture" "architecture"
    ∧ (∀ p ∈ knowledgeDomains, p.1 ≠ "architecture" →
        ¬ onlyWordsFrom p.1 "architecture")
    ∧ (analyzeQuery "architecture").query_type = QueryType.innovation
    ∧ mapDomainToType "architecture" = QueryType.architectural
    ∧ QueryType.innovation ≠ QueryType.architectural :=
  ⟨by decide, by decide, by decide, by decide, by decide⟩

/-- C4 amended: for every query containing only words from a single
domain's keyword list, that domain does receive a strictly positive score
in the scoring map, and `analyze_query` selects some domain with a positive
winning score at least as large — but the selected domain need not be the
original one, since keywords of other domains may occur as substrings of
the query. -/
theorem c4_amended (q : String) (d : String) (kws : List String)
    (hmem : (d, kws) ∈ knowledgeDomains)
    (hw : pyWords (lowerS q) ≠ [])
    (hall : ∀ w ∈ pyWords (lowerS q), w ∈ kws.map String.data) :
    ∃ s : ℚ, lookupScore d (domainScores q) = some s ∧ 0 < s ∧
      ∃ d' s', pickMax (domainScores q) = some (d', s') ∧ 0 < s' ∧ s ≤ s' := by
  obtain ⟨w, hwmem⟩ : ∃ w, w ∈ pyWords (lowerS q) := by
    cases hpw : pyWords (lowerS q) with
    | nil => exact absurd hpw hw
    | cons a t => exact ⟨a, hpw ▸ List.mem_cons_self a t⟩
  obtain ⟨kw, hkwmem, hkwdata⟩ := List.mem_map.mp (hall w hwmem)
  have hinfix : w <:+: lowerS q := pyWords_infix _ w hwmem
  have hcont : listContains kw.data (lowerS q) = true := by
    rw [listContains_iff, hkwdata]
    exact hinfix
  have hhits : 0 < kwHits kws (lowerS q) :=
    List.countP_pos_iff.mpr ⟨kw, hkwmem, hcont⟩
  have hlook := lookup_domainScores q d kws hmem
  rw [if_pos (Or.inl hhits)] at hlook
  have hmem2 := lookupScore_mem d _ _ hlook
  refine ⟨_, hlook, domainScores_val_pos q _ hmem2, ?_⟩
  cases hpm : pickMax (domainScores q) with
  | none =>
    rw [(pickMax_eq_none _).mp hpm] at hmem2
    exact absurd hmem2 (List.not_mem_nil _)
  | some x =>
    obtain ⟨d', s'⟩ := x
    obtain ⟨hxmem, hxmax⟩ := pickMax_spec _ _ hpm
    exact ⟨d', s', rfl, domainScores_val_pos q _ hxmem, hxmax _ hmem2⟩

/-- Witness for the amended C4 at `"gdpr"`, a word only the compliance
domain lists. -/
theorem c4_amended_witness :
    ("compliance", domainKeywords "compliance") ∈ knowledgeDomains
    ∧ pyWords (lowerS "gdpr") ≠ []
    ∧ (∀ w ∈ pyWords (lowerS "gdpr"),
        w ∈ (domainKeywords "compliance").map String.data)
    ∧ ∃ s : ℚ, lookupScore "compliance" (domainScores "gdpr") = some s ∧
        0 < s ∧
        ∃ d' s', pickMax (domainScores "gdpr") = some (d', s') ∧
          0 < s' ∧ s ≤ s' :=
  ⟨by decide, by decide, by decide,
   c4_amended "gdpr" "compliance" (domainKeywords "compliance") (by decide)
     (by decide) (by decide)⟩

/-- Direct evaluation of `N op M`: the reference value C5 compares the
generator's reported result against. -/
def directEval (op : ArithOp) (x y : ℚ) : ℚ :=
  match op with
  | .add => x + y
  | .sub => x - y
  | .mul => x * y
  | .div => x / y
  | .pow => ratPow x y

/-- Sanity identity for the overflow threshold: it is 2^1024 − 2^970. -/
theorem overflowThreshold_eq :
    overflowThreshold = 2 ^ (1024 : ℕ) - 2 ^ (970 : ℕ) := by
  norm_num [overflowThreshold, twoPow1024, twoPow32]

theorem pyFloatOfRat_finite (q : ℚ) (h : |q| < overflowThreshold) :
    pyFloatOfRat q = .finite q := by
  rw [abs_lt] at h
  unfold pyFloatOfRat
  rw [if_neg (not_le.mpr h.2), if_neg (not_le.mpr (by linarith [h.1]))]

theorem pyFloatOfRat_zero : pyFloatOfRat 0 = .finite 0 :=
  pyFloatOfRat_finite 0 (by decide)

theorem parseNum_nonneg (s : List Char) (v : ℚ) (r : List Char)
    (h : parseNum s = some (v, r)) : 0 ≤ v := by
  unfold parseNum at h
  cases hds : s.takeWhile Char.isDigit with
  | nil => rw [hds] at h; simp at h
  | cons d ds =>
    rw [hds] at h
    dsimp only at h
    cases hr : s.drop (d :: ds).length with
    | nil =>
      rw [hr] at h
      dsimp only at h
      injection h with h2
      injection h2 with hv hr2
      subst hv
      positivity
    | cons c r2 =>
      rw [hr] at h
      dsimp only at h
      by_cases hc : c = '.'
      · rw [if_pos hc] at h
        cases hfs : r2.takeWhile Char.isDigit with
        | nil =>
          rw [hfs] at h
          dsimp only at h
          injection h with h2
          injection h2 with hv hr2
          subst hv
          positivity
        | cons f fs =>
          rw [hfs] at h
          dsimp only at h
          injection h with h2
          injection h2 with hv hr2
          subst hv
          positivity
      · rw [if_neg hc] at h
        injection h with h2
        injection h2 with hv hr2
        subst hv
        positivity

theorem arithAt_nonneg (s : List Char) (n1 : ℚ) (op : ArithOp) (n2 : ℚ)
    (h : arithAt s = some (n1, op, n2)) : 0 ≤ n1 ∧ 0 ≤ n2 := by
  unfold arithAt at h
  cases hp1 : parseNum s with
  | none => rw [hp1] at h; simp at h
  | some p1 =>
    obtain ⟨v1, r1⟩ := p1
    rw [hp1] at h
    dsimp only at h
    cases hd : r1.dropWhile pySpace with
    | nil => rw [hd] at h; simp at h
    | cons o r3 =>
      rw [hd] at h
      dsimp only at h
      cases hco : charToOp o with
      | none => rw [hco] at h; simp at h
      | some op2 =>
        rw [hco] at h
        dsimp only at h
        cases hp2 : parseNum (r3.dropWhile pySpace) with
        | none => rw [hp2] at h; simp at h
        | some p2 =>
          obtain ⟨v2, r2⟩ := p2
          rw [hp2] at h
          dsimp only at h
          injection h with h2
          injection h2 with ha hb
          injection hb with hb1 hb2
          subst ha
          subst hb2
          exact ⟨parseNum_nonneg _ _ _ hp1, parseNum_nonneg _ _ _ hp2⟩

/-- Both operands recovered by the arithmetic regex are nonnegative: the
matched texts are plain decimal literals `\d+(\.\d+)?`. -/
theorem extractArith_nonneg :
    ∀ (s : List Char) (n1 : ℚ) (op : ArithOp) (n2 : ℚ),
      extractArith s = some (n1, op, n2) → 0 ≤ n1 ∧ 0 ≤ n2 := by
  intro s
  induction s with
  | nil => intro n1 op n2 h; cases h
  | cons c t ih =>
    intro n1 op n2 h
    unfold extractArith at h
    cases ha : arithAt (c :: t) with
    | some x =>
      rw [ha] at h
      dsimp only at h
      injection h with h2
      subst h2
      exact arithAt_nonneg _ _ _ _ ha
    | none =>
      rw [ha] at h
      dsimp only at h
      exact ih n1 op n2 h

theorem pfSub_self_finite (x : ℚ) :
    pfSub (PyFloat.finite x) (PyFloat.finite x) = PyFloat.finite 0 := by
  simp only [pfSub, sub_self, pyFloatOfRat_zero]

theorem pfAbs_zero : pfAbs (PyFloat.finite 0) = PyFloat.finite 0 := by
  simp [pfAbs]

/-- C5 counterexample: the claim as stated is false of the program.  At
`"10 ^ 400"` the arithmetic regex matches, yet the generator raises
`OverflowError` instead of returning any result; at the product of two
200-digit operands the generator does return, but the reported result is
infinity and the verification line is the `"⚠ Verification inconclusive"`
variant (the recomputation gives `abs(inf - inf) = nan`, which is not
below 0.001), not the claimed `"✓ Calculation verified"` one. -/
theorem c5_counterexample :
    extractArith "10 ^ 400".data = some (10, ArithOp.pow, 400)
    ∧ generateMathematicalResponseF "10 ^ 400" = .error .overflowError
    ∧ extractArith overflowProductQuery.data =
        some (bigNinesVal, ArithOp.mul, bigNinesVal)
    ∧ bigNinesVal ≠ 0
    ∧ generateMathematicalResponseF overflowProductQuery =
        .ok (.arith (.finite bigNinesVal) ArithOp.mul (.finite bigNinesVal)
          .inf "⚠ Verification inconclusive") :=
  ⟨by decide, by decide, by decide, by decide, by decide⟩

/-- C5 amended: whenever the arithmetic regex matches `N op M` in the
query, with `M ≠ 0` when the operator is division, an integer exponent
when it is `'^'`, and both operands and the exact value of `N op M`
strictly below the IEEE double overflow threshold — i.e. whenever no float
overflow occurs — the float-level generator returns without raising, its
reported result equals the direct evaluation of `N op M` exactly (so in
particular within the 1e-3 tolerance), and the verification line is the
`"✓ Calculation verified"` variant. -/
theorem c5_amended (q : String) (n1 n2 : ℚ) (op : ArithOp)
    (hx : extractArith q.data = some (n1, op, n2))
    (hdiv : op = .div → n2 ≠ 0)
    (hpowint : op = .pow → n2.den = 1)
    (h1 : |n1| < overflowThreshold)
    (h2 : |n2| < overflowThreshold)
    (hres : |directEval op n1 n2| < overflowThreshold) :
    generateMathematicalResponseF q =
      .ok (.arith (.finite n1) op (.finite n2)
        (.finite (directEval op n1 n2)) "✓ Calculation verified") := by
  obtain ⟨-, hn20⟩ := extractArith_nonneg q.data n1 op n2 hx
  have hn1f : pyFloatOfRat n1 = PyFloat.finite n1 := pyFloatOfRat_finite n1 h1
  have hn2f : pyFloatOfRat n2 = PyFloat.finite n2 := pyFloatOfRat_finite n2 h2
  have hguard : (op ≠ ArithOp.div)
      ∨ (op = ArithOp.div ∧ PyFloat.finite n2 ≠ PyFloat.finite 0) := by
    cases op
    case div =>
      exact Or.inr ⟨rfl, fun he => hdiv rfl (PyFloat.finite.inj he)⟩
    all_goals exact Or.inl (by simp)
  have happ : applyOpF op (PyFloat.finite n1) (PyFloat.finite n2) =
      .ok (.inl (PyFloat.finite (directEval op n1 n2))) := by
    cases op
    case add =>
      simp only [directEval] at hres ⊢
      simp only [applyOpF, pfAdd]
      rw [pyFloatOfRat_finite _ hres]
    case sub =>
      simp only [directEval] at hres ⊢
      simp only [applyOpF, pfSub]
      rw [pyFloatOfRat_finite _ hres]
    case mul =>
      simp only [directEval] at hres ⊢
      simp only [applyOpF, pfMul]
      rw [pyFloatOfRat_finite _ hres]
    case div =>
      have hne : n2 ≠ 0 := hdiv rfl
      simp only [directEval] at hres ⊢
      simp only [applyOpF, pfDiv]
      rw [if_pos (fun he => hne (PyFloat.finite.inj he)), if_neg hne,
        pyFloatOfRat_finite _ hres]
    case pow =>
      have hden : n2.den = 1 := hpowint rfl
      have hnum : 0 ≤ n2.num := Rat.num_nonneg.mpr hn20
      have hrr : ratPow n1 n2 = n1 ^ n2.num.toNat := by
        unfold ratPow
        rw [if_pos hden, if_pos hnum]
      simp only [directEval] at hres ⊢
      rw [hrr] at hres
      simp only [applyOpF, pfPow]
      rw [if_pos hden, if_pos hnum, if_neg (not_le.mpr hres), hrr]
      rfl
  have hzlt : pfLt (PyFloat.finite 0) (PyFloat.finite (1 / 1000)) = true := by
    decide
  have hver : verifyCalculationF (PyFloat.finite n1) op (PyFloat.finite n2)
      (Sum.inl (PyFloat.finite (directEval op n1 n2)))
      = .ok "✓ Calculation verified" := by
    cases op
    case add =>
      have hfin : pfAdd (PyFloat.finite n1) (PyFloat.finite n2)
          = PyFloat.finite (n1 + n2) := by
        simp only [pfAdd]
        exact pyFloatOfRat_finite _ (by simpa [directEval] using hres)
      simp only [verifyCalculationF, directEval]
      rw [hfin]
      simp only [pfSub_self_finite, pfAbs_zero, hzlt]
      rfl
    case sub =>
      have hfin : pfSub (PyFloat.finite n1) (PyFloat.finite n2)
          = PyFloat.finite (n1 - n2) := by
        simp only [pfSub]
        exact pyFloatOfRat_finite _ (by simpa [directEval] using hres)
      simp only [verifyCalculationF, directEval]
      rw [hfin]
      simp only [pfSub_self_finite, pfAbs_zero, hzlt]
      rfl
    case mul =>
      have hfin : pfMul (PyFloat.finite n1) (PyFloat.finite n2)
          = PyFloat.finite (n1 * n2) := by
        simp only [pfMul]
        exact pyFloatOfRat_finite _ (by simpa [directEval] using hres)
      simp only [verifyCalculationF, directEval]
      rw [hfin]
      simp only [pfSub_self_finite, pfAbs_zero, hzlt]
      rfl
    case div =>
      have hne : n2 ≠ 0 := hdiv rfl
      have hnef : PyFloat.finite n2 ≠ PyFloat.finite 0 :=
        fun he => hne (PyFloat.finite.inj he)
      have hfin : pfDiv (PyFloat.finite n1) (PyFloat.finite n2)
          = PyFloat.finite (n1 / n2) := by
        simp only [pfDiv]
        rw [if_neg hne]
        exact pyFloatOfRat_finite _ (by simpa [directEval] using hres)
      simp only [verifyCalculationF, directEval]
      rw [hfin]
      simp only [pfSub_self_finite, pfAbs_zero, hzlt]
      simp [hnef]
    case pow =>
      have hden : n2.den = 1 := hpowint rfl
      have hnum : 0 ≤ n2.num := Rat.num_nonneg.mpr hn20
      have hrr : ratPow n1 n2 = n1 ^ n2.num.toNat := by
        unfold ratPow
        rw [if_pos hden, if_pos hnum]
      have hresp : |n1 ^ n2.num.toNat| < overflowThreshold := by
        rw [← hrr]
        simpa [directEval] using hres
      have hpw : pfPow (PyFloat.finite n1) (PyFloat.finite n2)
          = .ok (PyFloat.finite (ratPow n1 n2)) := by
        simp only [pfPow]
        rw [if_pos hden, if_pos hnum, if_neg (not_le.mpr hresp), hrr]
      simp only [verifyCalculationF, directEval]
      rw [hpw]
      simp only [pfSub_self_finite, pfAbs_zero, hzlt]
      rfl
  unfold generateMathematicalResponseF
  rw [hx]
  dsimp only
  rw [hn1f, hn2f, if_pos hguard, happ]
  dsimp only
  rw [hver]

/-- Witness for the amended C5 at `"what is 15 + 27"`, the spec's own
example: all operands and the result 42 are far below the overflow
threshold, and the float-level generator returns 42 with the verified
variant. -/
theorem c5_amended_witness :
    extractArith "what is 15 + 27".data = some (15, ArithOp.add, 27)
    ∧ (ArithOp.add = ArithOp.div → (27 : ℚ) ≠ 0)
    ∧ (ArithOp.add = ArithOp.pow → (27 : ℚ).den = 1)
    ∧ |(15 : ℚ)| < overflowThreshold
    ∧ |(27 : ℚ)| < overflowThreshold
    ∧ |directEval ArithOp.add 15 27| < overflowThreshold
    ∧ generateMathematicalResponseF "what is 15 + 27" =
        .ok (.arith (.finite 15) ArithOp.add (.finite 27)
          (.finite (directEval ArithOp.add 15 27)) "✓ Calculation verified") :=
  ⟨by decide, by decide, by decide, by decide, by decide, by decide,
   c5_amended "what is 15 + 27" 15 27 ArithOp.add (by decide) (by decide)
     (by decide) (by decide) (by decide) (by decide)⟩

/-- C6: a query whose arithmetic match is `N / 0` produces, at the float
level and for every magnitude of `N` (even one whose `float()` conversion
saturates to infinity), the normally returned (`Except.ok`, so no
exception) `Mathematical Error` response carrying exactly the string
`"undefined (division by zero)"` — the printed line is
`"Mathematical Error: undefined (division by zero)"`; the division lambda
returns this string instead of dividing, so nothing is raised. -/
theorem c6_division_by_zero (q : String) (n1 n2 : ℚ)
    (hx : extractArith q.data = some (n1, ArithOp.div, n2)) (h0 : n2 = 0) :
    generateMathematicalResponseF q =
      .ok (.mathError "undefined (division by zero)") := by
  subst h0
  have hng : ¬((ArithOp.div ≠ ArithOp.div)
      ∨ (ArithOp.div = ArithOp.div ∧ pyFloatOfRat 0 ≠ PyFloat.finite 0)) := by
    rw [pyFloatOfRat_zero]
    rintro (h | ⟨-, h⟩)
    · exact h rfl
    · exact h rfl
  have happ : applyOpF ArithOp.div (pyFloatOfRat n1) (pyFloatOfRat 0) =
      .ok (.inr "undefined (division by zero)") := by
    rw [pyFloatOfRat_zero]
    simp only [applyOpF]
    rw [if_neg (fun h => h rfl)]
  unfold generateMathematicalResponseF
  rw [hx]
  dsimp only
  rw [if_neg hng, happ]

/-- Witness for C6, twice: at `"5 / 0"`, and at the division of a 400-digit
operand — whose `float()` value is infinity — by zero, showing the reported
error is independent of the dividend's float fate. -/
theorem c6_division_by_zero_witness :
    (extractArith "5 / 0".data = some (5, ArithOp.div, 0)
      ∧ generateMathematicalResponseF "5 / 0" =
          .ok (.mathError "undefined (division by zero)"))
    ∧ (extractArith (bigNines ++ bigNines ++ " / 0").data =
          some ((10 : ℚ) ^ (400 : ℕ) - 1, ArithOp.div, 0)
      ∧ pyFloatOfRat ((10 : ℚ) ^ (400 : ℕ) - 1) = PyFloat.inf
      ∧ generateMathematicalResponseF (bigNines ++ bigNines ++ " / 0") =
          .ok (.mathError "undefined (division by zero)")) :=
  ⟨⟨by decide, c6_division_by_zero "5 / 0" 5 0 (by decide) rfl⟩,
   ⟨by decide, by decide,
    c6_division_by_zero (bigNines ++ bigNines ++ " / 0")
      ((10 : ℚ) ^ (400 : ℕ) - 1) 0 (by decide) rfl⟩⟩

/-- Procedure `_assess_complexity` as the spec words it: check the expert, advanced,
intermediate and basic indicator sets in that order, return the first tier
with an indicator present in the lowercased query, and otherwise fall back
to the length heuristic on the raw query. -/
def specAssessComplexity (q : String) : String :=
  if tierHit "expert" (lowerS q) then "expert"
  else if tierHit "advanced" (lowerS q) then "advanced"
  else if tierHit "intermediate" (lowerS q) then "intermediate"
  else if tierHit "basic" (lowerS q) then "basic"
  else if 200 < q.length then "advanced"
  else if 100 < q.length then "intermediate"
  else "basic"

/-- C7: the complexity assessment agrees everywhere with the spec's ordered
scan plus length fallback; in particular any query containing an
expert-tier indicator — even together with a basic-tier word — resolves to
`"expert"`. -/
theorem c7_complexity_order :
    (∀ q : String, assessComplexity q = specAssessComplexity q)
    ∧ (∀ q : String, (∃ w ∈ indicatorsFor "expert",
        listContains w.data (lowerS q) = true) →
        assessComplexity q = "expert") := by
  constructor
  · intro q
    unfold assessComplexity specAssessComplexity
    cases h1 : tierHit "expert" (lowerS q) <;>
      cases h2 : tierHit "advanced" (lowerS q) <;>
      cases h3 : tierHit "intermediate" (lowerS q) <;>
      cases h4 : tierHit "basic" (lowerS q) <;>
      simp [List.find?, h1, h2, h3, h4]
  · rintro q ⟨w, hw, hc⟩
    have h1 : tierHit "expert" (lowerS q) = true := by
      unfold tierHit
      exact List.any_eq_true.mpr ⟨w, hw, hc⟩
    unfold assessComplexity
    simp [List.find?, h1]

/-- Witness for C7 at `"what is quantum"`: it contains the basic-tier word
`"what"` and the expert-tier word `"quantum"`, and resolves to expert. -/
theorem c7_complexity_order_witness :
    (∃ w ∈ indicatorsFor "expert",
      listContains w.data (lowerS "what is quantum") = true)
    ∧ (∃ w ∈ indicatorsFor "basic",
      listContains w.data (lowerS "what is quantum") = true)
    ∧ assessComplexity "what is quantum" = "expert" :=
  ⟨⟨"quantum", by decide, by decide⟩, ⟨"what", by decide, by decide⟩,
   c7_complexity_order.2 "what is quantum" ⟨"quantum", by decide, by decide⟩⟩

/-- C8, at the failing input `"10 ^ 400"`: the embedded pipeline reaches the
exponentiation branch of the `operations` dict and computes `10 ** 400`
exactly; the second conjunct places that value beyond `2 ^ 1024`, the upper
bound of IEEE-754 double range, which is where CPython's float `**` raises
`OverflowError` instead of returning — so the real process dies with a
traceback rather than printing a response and exiting 0 as the claim
requires. -/
theorem c8_overflow_input :
    processQueryIn ⟨0, "timestamp"⟩ "10 ^ 400" =
      .math (.arith 10 ArithOp.pow 400 ((10 : ℚ) ^ (400 : ℕ))
        "✓ Calculation verified")
    ∧ (2 : ℚ) ^ (1024 : ℕ) < (10 : ℚ) ^ (400 : ℕ) := by
  constructor
  · decide
  · norm_num

/-- C9: `analyze_query` never consults the process environment (random
state, clock); two runs on the same query, under arbitrary environments,
produce identical `AnalysisResult` records field by field. -/
theorem c9_deterministic (e1 e2 : AgentEnv) (q : String) :
    analyzeQueryIn e1 q = analyzeQueryIn e2 q
    ∧ (analyzeQueryIn e1 q).query_type = (analyzeQueryIn e2 q).query_type
    ∧ (analyzeQueryIn e1 q).confidence = (analyzeQueryIn e2 q).confidence
    ∧ (analyzeQueryIn e1 q).reasoning = (analyzeQueryIn e2 q).reasoning
    ∧ (analyzeQueryIn e1 q).complexity_level
        = (analyzeQueryIn e2 q).complexity_level :=
  ⟨rfl, rfl, rfl, rfl, rfl⟩

/-- C10: the query type of every analysis is one of exactly eight values;
REASONING, CREATIVE, TECHNICAL (the `_map_domain_to_type` default),
ETHICAL and INTEGRATION are never produced, so their dispatch-table
entries are unreachable through `process_query`. -/
theorem c10_query_type_range (q : String) :
    (analyzeQuery q).query_type ∈
      [QueryType.mathematical, QueryType.security, QueryType.architectural,
       QueryType.optimization, QueryType.compliance, QueryType.innovation,
       QueryType.strategic, QueryType.general]
    ∧ (analyzeQuery q).query_type ∉
      [QueryType.reasoning, QueryType.creative, QueryType.technical,
       QueryType.ethical, QueryType.integration] := by
  have hmain : (analyzeQuery q).query_type ∈
      [QueryType.mathematical, QueryType.security, QueryType.architectural,
       QueryType.optimization, QueryType.compliance, QueryType.innovation,
       QueryType.strategic, QueryType.general] := by
    cases hpm : pickMax (domainScores q) with
    | none =>
      rw [analyzeQuery_none q hpm]
      split
      · show QueryType.mathematical ∈ _
        decide
      · show QueryType.general ∈ _
        decide
    | some x =>
      obtain ⟨d, s⟩ := x
      have hmem := (pickMax_spec _ _ hpm).1
      have hkey : d ∈ knowledgeDomains.map Prod.fst :=
        domainScores_keys q (d, s) hmem
      rw [analyzeQuery_some q d s hpm]
      split
      · show QueryType.mathematical ∈ _
        decide
      · show mapDomainToType d ∈ _
        have hkey' : d ∈ ["security", "architecture", "optimization",
            "compliance", "innovation", "business"] := hkey
        fin_cases hkey' <;> decide
  refine ⟨hmain, ?_⟩
  have h5 : ∀ t : QueryType,
      t ∈ [QueryType.mathematical, QueryType.security, QueryType.architectural,
        QueryType.optimization, QueryType.compliance, QueryType.innovation,
        QueryType.strategic, QueryType.general] →
      t ∉ [QueryType.reasoning, QueryType.creative, QueryType.technical,
        QueryType.ethical, QueryType.integration] := by
    intro t ht
    fin_cases ht <;> decide
  exact h5 _ hmain
